import Mathlib

/-!
Shallow embedding of `src/validation/validate_sed_contents.py`, the SED
library content validator.  The script walks a directory tree; for each
regular file it (1) parses the file as two-column numeric data via
`np.genfromtxt` and records a failure `(full_name, "could not load")` if
parsing raises, or `(full_name, "nan")` if any parsed wavelength or flux is
NaN; (2) unless loading failed, re-opens the file as text (through a
decompressing open when the name ends in `.gz`) and records
`(full_name, "header")` if the last header line (`#`-line) before the first
data line does not end with a close parenthesis followed by a newline.
-/

namespace SedValidate

/-- Model of a 64-bit float value as far as this validator inspects it:
`np.isnan` only distinguishes NaN from non-NaN, so a value is either NaN or
carries a rational payload. -/
inductive PyFloat where
  | nan : PyFloat
  | val (x : ℚ) : PyFloat
deriving DecidableEq, Repr

/-- Mirrors `np.isnan` applied to one value. -/
def PyFloat.isNaN : PyFloat → Bool
  | .nan => true
  | .val _ => false

/-- One row of the structured array `np.dtype([('wv', float), ('flux', float)])`. -/
structure SedRow where
  wv : PyFloat
  flux : PyFloat
deriving DecidableEq, Repr

/-- A regular file as this validator observes it.
`parse` is the result of `np.genfromtxt(full_name, dtype=dtype)`: `none`
when the call raises (any exception is caught by the bare `except`),
`some data` when it returns the parsed rows.  `lines` is the sequence of
text lines obtained by iterating over the opened file, each line carrying
its trailing newline character as Python's line iteration does; for a
`.gz` file this is the decompressed text. -/
structure SedFile where
  parse : Option (List SedRow)
  lines : List String
deriving DecidableEq, Repr

/-- Mirrors `np.isnan(data['wv']).any() or np.isnan(data['flux']).any()`. -/
def hasNaN (data : List SedRow) : Bool :=
  data.any (fun r => r.wv.isNaN) || data.any (fun r => r.flux.isNaN)

/-- Mirrors Python's `s.endswith(t)`, computed on the character sequence. -/
def pyEndsWith (s t : String) : Bool := List.isSuffixOf t.data s.data

/-- Mirrors `line[0] == '#'`: lines produced by file iteration are nonempty
(each contains at least one character, usually its trailing newline), so
testing the first character; on the unreachable empty string we answer
`false`. -/
def isHdr (line : String) : Bool :=
  match line.data with
  | c :: _ => c == '#'
  | [] => false

/-- The header-scanning loop body: `prev_line` starts as `None`; each
`#`-line replaces it; at the first non-`#`-line the loop breaks, reporting
a failure exactly when a previous header line was seen that does not end
with close-parenthesis-newline.  Falling off the end of the file reports
nothing. -/
def headerScan : Option String → List String → Bool
  | _, [] => false
  | prev, line :: rest =>
    if isHdr line then
      headerScan (some line) rest
    else
      match prev with
      | some p => !(pyEndsWith p ")\n")
      | none => false

/-- The whole header check on a file's text lines (`prev_line = None` initially). -/
def headerFail (lines : List String) : Bool := headerScan none lines

/-- Modelled from the spec: `gzip.open` on a `.gz` file yields its
decompressed text; a `SedFile` stores exactly that text in `lines`, so the
decompressing open returns `f.lines`. -/
def gzipOpenLines (f : SedFile) : List String := f.lines

/-- The plain-text `open`, which yields the file's text lines directly. -/
def plainOpenLines (f : SedFile) : List String := f.lines

/-- Mirrors the `open_fn` selection: `gzip.open` when `full_name.endswith('.gz')`,
plain `open` otherwise. -/
def openLines (full_name : String) (f : SedFile) : List String :=
  if pyEndsWith full_name ".gz" then gzipOpenLines f else plainOpenLines f

/-- The per-file body of `_verify_sed_files`: the `try` block appends
`(full_name, 'could not load')` and `continue`s when `np.genfromtxt`
raises; otherwise it appends `(full_name, 'nan')` when a parsed value is
NaN and then, independently, runs the header check and appends
`(full_name, 'header')` when it fails. -/
def fileCheck (f : SedFile) (full_name : String) : List (String × String) :=
  match f.parse with
  | none => [(full_name, "could not load")]
  | some data =>
    (if hasNaN data then [(full_name, "nan")] else []) ++
    (if headerFail (openLines full_name f) then [(full_name, "header")] else [])

/-- Mirrors `os.path.join(dir_name, file_name)` on POSIX. -/
def joinPath (dirName fileName : String) : String := dirName ++ "/" ++ fileName

/-- A directory entry as `os.listdir`/`os.path.isdir` classify it: a
directory carrying its listing (`none` when `os.listdir` on it raises,
e.g. it is unreadable), or a regular file with its content. -/
inductive FSEntry where
  | file (name : String) (f : SedFile)
  | dir (name : String) (listing : Option (List FSEntry))

mutual

/-- Mirrors `_verify_sed_files(dir_name)`: `os.listdir` either raises
(propagated, aborting the run) or yields the entries, which are then
processed in listing order. -/
def verify_sed_files (dirName : String) : Option (List FSEntry) → Except String (List (String × String))
  | none => .error dirName
  | some entries => verifyList dirName entries

/-- The `for file_name in contents` loop: failures accumulate left to
right; an exception raised while processing an entry propagates, so no
partial failure list is returned. -/
def verifyList (dirName : String) : List FSEntry → Except String (List (String × String))
  | [] => .ok []
  | e :: rest =>
    match verifyEntry dirName e with
    | .error msg => .error msg
    | .ok fs =>
      match verifyList dirName rest with
      | .error msg => .error msg
      | .ok r => .ok (fs ++ r)

/-- One loop iteration: recurse when `os.path.isdir(full_name)`, otherwise
apply the per-file checks. -/
def verifyEntry (dirName : String) : FSEntry → Except String (List (String × String))
  | .dir n listing => verify_sed_files (joinPath dirName n) listing
  | .file n f => .ok (fileCheck f (joinPath dirName n))

end

/-- The file `f` sits at full path `p` somewhere inside the (accessible part
of the) tree rooted at directory `d` with entries `entries`: either directly
as an entry, or nested inside an accessible subdirectory. -/
inductive FileAt : String → List FSEntry → String → SedFile → Prop where
  | here {d : String} {entries : List FSEntry} {n : String} {f : SedFile} :
      FSEntry.file n f ∈ entries → FileAt d entries (joinPath d n) f
  | deeper {d : String} {entries : List FSEntry} {n : String}
      {sub : List FSEntry} {p : String} {f : SedFile} :
      FSEntry.dir n (some sub) ∈ entries → FileAt (joinPath d n) sub p f →
      FileAt d entries p f

/-! ### Helper lemmas -/

theorem openLines_eq (full_name : String) (f : SedFile) :
    openLines full_name f = f.lines := by
  unfold openLines gzipOpenLines plainOpenLines
  split <;> rfl

theorem headerScan_all_hdr (hdrs : List String)
    (hall : ∀ l ∈ hdrs, isHdr l = true) :
    ∀ prev, headerScan prev hdrs = false := by
  induction hdrs with
  | nil => intro prev; rfl
  | cons a t ih =>
    intro prev
    have ha : isHdr a = true := hall a (List.mem_cons_self a t)
    simp only [headerScan, ha, if_true]
    exact ih (fun l hl => hall l (List.mem_cons_of_mem a hl)) (some a)

theorem headerScan_split_some (hdrs : List String) (d : String)
    (rest : List String) (h : String)
    (hall : ∀ l ∈ hdrs, isHdr l = true) (hd : isHdr d = false)
    (hlast : hdrs.getLast? = some h) :
    ∀ prev, headerScan prev (hdrs ++ d :: rest) = !(pyEndsWith h ")\n") := by
  induction hdrs with
  | nil => simp at hlast
  | cons a t ih =>
    intro prev
    have ha : isHdr a = true := hall a (List.mem_cons_self a t)
    rw [List.cons_append]
    simp only [headerScan, ha, if_true]
    cases t with
    | nil =>
      simp only [List.getLast?_singleton, Option.some.injEq] at hlast
      subst hlast
      rw [List.nil_append]
      simp only [headerScan, hd, Bool.false_eq_true, if_false]
    | cons b t2 =>
      rw [List.getLast?_cons_cons] at hlast
      exact ih (fun l hl => hall l (List.mem_cons_of_mem a hl)) hlast (some a)

theorem headerScan_no_hdr (d : String) (rest : List String)
    (hd : isHdr d = false) (prev : Option String) (hprev : prev = none) :
    headerScan prev (d :: rest) = false := by
  subst hprev
  simp only [headerScan, hd, Bool.false_eq_true, if_false]

theorem dropWhile_head_not {α : Type} (p : α → Bool) :
    ∀ (l : List α) (d : α) (rest : List α),
      l.dropWhile p = d :: rest → p d = false := by
  intro l
  induction l with
  | nil => intro d rest h; simp [List.dropWhile] at h
  | cons a t ih =>
    intro d rest h
    by_cases hp : p a = true
    · rw [List.dropWhile_cons, if_pos hp] at h
      exact ih d rest h
    · rw [List.dropWhile_cons, if_neg hp] at h
      obtain ⟨rfl, -⟩ := List.cons.inj h
      exact Bool.not_eq_true _ ▸ hp

theorem headerFail_of_bad_last (lines : List String) (h : String)
    (hlast : (lines.takeWhile isHdr).getLast? = some h)
    (hbad : pyEndsWith h ")\n" = false)
    (hdata : lines.dropWhile isHdr ≠ []) :
    headerFail lines = true := by
  obtain ⟨d, rest, hdr⟩ : ∃ d rest, lines.dropWhile isHdr = d :: rest := by
    cases hdrop : lines.dropWhile isHdr with
    | nil => exact absurd hdrop hdata
    | cons d rest => exact ⟨d, rest, rfl⟩
  have hsplit : lines = lines.takeWhile isHdr ++ d :: rest := by
    rw [← hdr, List.takeWhile_append_dropWhile]
  rw [headerFail, hsplit,
    headerScan_split_some (lines.takeWhile isHdr) d rest h
      (fun l hl => List.mem_takeWhile_imp hl)
      (dropWhile_head_not isHdr lines d rest hdr) hlast none]
  simp [hbad]

theorem headerFail_eq_false_of_good (lines : List String)
    (hgood : lines.takeWhile isHdr = [] ∨
      ∃ h, (lines.takeWhile isHdr).getLast? = some h ∧
        pyEndsWith h ")\n" = true) :
    headerFail lines = false := by
  cases hdrop : lines.dropWhile isHdr with
  | nil =>
    have hsplit : lines = lines.takeWhile isHdr := by
      conv_lhs => rw [← List.takeWhile_append_dropWhile (p := isHdr) (l := lines)]
      rw [hdrop, List.append_nil]
    rw [headerFail, hsplit]
    exact headerScan_all_hdr _ (fun l hl => List.mem_takeWhile_imp hl) none
  | cons d rest =>
    have hsplit : lines = lines.takeWhile isHdr ++ d :: rest := by
      rw [← hdrop, List.takeWhile_append_dropWhile]
    have hd : isHdr d = false := dropWhile_head_not isHdr lines d rest hdrop
    rcases hgood with hnil | ⟨h, hlast, hend⟩
    · rw [headerFail, hsplit, hnil, List.nil_append]
      exact headerScan_no_hdr d rest hd none rfl
    · rw [headerFail, hsplit,
        headerScan_split_some (lines.takeWhile isHdr) d rest h
          (fun l hl => List.mem_takeWhile_imp hl) hd hlast none]
      simp [hend]

theorem hasNaN_of_mem (data : List SedRow)
    (h : ∃ r ∈ data, r.wv.isNaN = true ∨ r.flux.isNaN = true) :
    hasNaN data = true := by
  obtain ⟨r, hr, hnan⟩ := h
  rcases hnan with hw | hf
  · exact Bool.or_eq_true_iff.mpr (Or.inl (List.any_eq_true.mpr ⟨r, hr, hw⟩))
  · exact Bool.or_eq_true_iff.mpr (Or.inr (List.any_eq_true.mpr ⟨r, hr, hf⟩))

theorem hasNaN_eq_false (data : List SedRow)
    (h : ∀ r ∈ data, r.wv.isNaN = false ∧ r.flux.isNaN = false) :
    hasNaN data = false := by
  rw [hasNaN, Bool.or_eq_false_iff]
  constructor <;> rw [List.any_eq_false] <;> intro r hr
  · exact (h r hr).1 ▸ (by simp)
  · exact (h r hr).2 ▸ (by simp)

theorem header_mem_fileCheck (f : SedFile) (n : String) :
    ((n, "header") ∈ fileCheck f n) ↔
      (f.parse.isSome = true ∧ headerFail f.lines = true) := by
  cases hp : f.parse with
  | none => simp [fileCheck, hp]
  | some data =>
    rw [fileCheck, hp]
    rw [openLines_eq]
    cases h1 : hasNaN data <;> cases h2 : headerFail f.lines <;>
      simp [h1, h2, hp]

theorem verifyList_eq_mapM (d : String) (entries : List FSEntry) :
    verifyList d entries = Except.map List.flatten (entries.mapM (verifyEntry d)) := by
  induction entries with
  | nil => simp only [verifyList]; rfl
  | cons e rest ih =>
    simp only [verifyList]
    rw [List.mapM_cons]
    cases he : verifyEntry d e with
    | error msg => simp only [he]; rfl
    | ok fs =>
      simp only [he, ih]
      cases hm : List.mapM (verifyEntry d) rest with
      | error msg => rfl
      | ok rs => rfl

theorem verifyList_entry_contrib (d : String) (entries : List FSEntry) :
    ∀ (l : List (String × String)), verifyList d entries = .ok l →
      ∀ e ∈ entries, ∃ le, verifyEntry d e = .ok le ∧ ∀ x ∈ le, x ∈ l := by
  induction entries with
  | nil => intro l _ e he; simp at he
  | cons e0 rest ih =>
    intro l h e he
    simp only [verifyList] at h
    cases he0 : verifyEntry d e0 with
    | error msg => simp only [he0] at h; exact Except.noConfusion h
    | ok fs =>
      simp only [he0] at h
      cases hr : verifyList d rest with
      | error msg => simp only [hr] at h; exact Except.noConfusion h
      | ok r =>
        simp only [hr, Except.ok.injEq] at h
        subst h
        rcases List.mem_cons.mp he with rfl | hmem
        · exact ⟨fs, he0, fun x hx => List.mem_append_left r hx⟩
        · obtain ⟨le, h1, h2⟩ := ih r hr e hmem
          exact ⟨le, h1, fun x hx => List.mem_append_right fs (h2 x hx)⟩

theorem fileAt_mem (d : String) (entries : List FSEntry) (p : String)
    (f : SedFile) (hat : FileAt d entries p f) :
    ∀ l, verifyList d entries = .ok l → ∀ x ∈ fileCheck f p, x ∈ l := by
  induction hat with
  | here hmem =>
    rename_i d1 entries1 n1 f1
    intro l hl x hx
    obtain ⟨le, h1, h2⟩ := verifyList_entry_contrib _ _ _ hl _ hmem
    simp only [verifyEntry, Except.ok.injEq] at h1
    exact h2 x (h1 ▸ hx)
  | deeper hmem hsub ih =>
    rename_i d1 entries1 n1 sub1 p1 f1
    intro l hl x hx
    obtain ⟨le, h1, h2⟩ := verifyList_entry_contrib _ _ _ hl _ hmem
    have h1' : verifyList (joinPath d1 n1) sub1 = .ok le := by
      simpa only [verifyEntry, verify_sed_files] using h1
    exact h2 x (ih le h1' x hx)

/-! ### Claims -/

/-- C1: for every file that the numeric parser loads successfully and whose
parsed data contains at least one NaN in either the wavelength or the flux
column, the File Check appends exactly one failure record for that file with
reason `nan`. -/
theorem nan_failure_recorded_exactly_once (f : SedFile) (n : String)
    (data : List SedRow) (hp : f.parse = some data)
    (hn : ∃ r ∈ data, r.wv.isNaN = true ∨ r.flux.isNaN = true) :
    (fileCheck f n).filter (fun r => r.2 == "nan") = [(n, "nan")] := by
  have h1 : hasNaN data = true := hasNaN_of_mem data hn
  have hhn : (("header" : String) == "nan") = false := by rfl
  simp only [fileCheck, hp, h1, if_true]
  cases hh : headerFail (openLines n f) <;>
    simp [List.filter, hhn]

/-- Witness for C1 at a one-row file whose wavelength is NaN. -/
theorem nan_failure_recorded_exactly_once_witness :
    (fileCheck ⟨some [⟨PyFloat.nan, PyFloat.val 1⟩], []⟩ "starSED/a.dat").filter
      (fun r => r.2 == "nan") = [("starSED/a.dat", "nan")] :=
  nan_failure_recorded_exactly_once _ _ _ rfl
    ⟨⟨PyFloat.nan, PyFloat.val 1⟩, List.mem_singleton.mpr rfl, Or.inl rfl⟩

/-- C2: for every file for which parsing raises, the File Check appends
exactly one record with reason `could not load`, and neither a `nan` nor a
`header` record: the whole result for that file is that single record. -/
theorem could_not_load_only_record (f : SedFile) (n : String)
    (hp : f.parse = none) :
    fileCheck f n = [(n, "could not load")] := by
  simp only [fileCheck, hp]

/-- Witness for C2 at an unparseable file. -/
theorem could_not_load_only_record_witness :
    fileCheck ⟨none, ["#x\n"]⟩ "galaxySED/b.dat" =
      [("galaxySED/b.dat", "could not load")] :=
  could_not_load_only_record _ _ rfl

/-- C3: for every file that loads without a parse error and whose last
header line (the last `#`-line before the first non-`#` line, which must
exist) does not end with a close parenthesis immediately followed by a
newline, the File Check appends a `header` failure record for it. -/
theorem bad_last_header_reported (f : SedFile) (n : String)
    (data : List SedRow) (h : String)
    (hp : f.parse = some data)
    (hlast : (f.lines.takeWhile isHdr).getLast? = some h)
    (hbad : pyEndsWith h ")\n" = false)
    (hdata : f.lines.dropWhile isHdr ≠ []) :
    (n, "header") ∈ fileCheck f n := by
  rw [header_mem_fileCheck]
  exact ⟨by rw [hp]; rfl, headerFail_of_bad_last f.lines h hlast hbad hdata⟩

/-- Witness for C3 at a file whose only header line lacks the `)\n` ending. -/
theorem bad_last_header_reported_witness :
    ("starSED/c.dat", "header") ∈
      fileCheck ⟨some [⟨PyFloat.val 1, PyFloat.val 1⟩],
        ["# Flambda ergs\n", "100.0 1.0\n"]⟩ "starSED/c.dat" :=
  bad_last_header_reported _ _ _ "# Flambda ergs\n" rfl (by decide) (by decide)
    (by decide)

/-- C4: when a file loads without a parse error, the NaN check and the
header check both run: a file with a NaN and a bad last header line gets
both records, the `nan` one first. -/
theorem nan_and_header_both_recorded (f : SedFile) (n : String)
    (data : List SedRow) (h : String)
    (hp : f.parse = some data)
    (hn : ∃ r ∈ data, r.wv.isNaN = true ∨ r.flux.isNaN = true)
    (hlast : (f.lines.takeWhile isHdr).getLast? = some h)
    (hbad : pyEndsWith h ")\n" = false)
    (hdata : f.lines.dropWhile isHdr ≠ []) :
    fileCheck f n = [(n, "nan"), (n, "header")] := by
  have h1 : hasNaN data = true := hasNaN_of_mem data hn
  have h2 : headerFail f.lines = true :=
    headerFail_of_bad_last f.lines h hlast hbad hdata
  simp [fileCheck, hp, openLines_eq, h1, h2]

/-- Witness for C4 at a file with both a NaN row and a bad header. -/
theorem nan_and_header_both_recorded_witness :
    fileCheck ⟨some [⟨PyFloat.nan, PyFloat.val 1⟩],
        ["# Flambda ergs\n", "100.0 1.0\n"]⟩ "agnSED/d.dat" =
      [("agnSED/d.dat", "nan"), ("agnSED/d.dat", "header")] :=
  nan_and_header_both_recorded _ _ _ "# Flambda ergs\n" rfl
    ⟨⟨PyFloat.nan, PyFloat.val 1⟩, List.mem_singleton.mpr rfl, Or.inl rfl⟩
    (by decide) (by decide) (by decide)

/-- C5: a well-formed file — parseable, no NaN in either column, and header
absent or with its last header line ending in `)` then newline — produces
no failure record at all. -/
theorem wellformed_no_failures (f : SedFile) (n : String)
    (data : List SedRow)
    (hp : f.parse = some data)
    (hn : ∀ r ∈ data, r.wv.isNaN = false ∧ r.flux.isNaN = false)
    (hh : f.lines.takeWhile isHdr = [] ∨
      ∃ h, (f.lines.takeWhile isHdr).getLast? = some h ∧
        pyEndsWith h ")\n" = true) :
    fileCheck f n = [] := by
  have h1 : hasNaN data = false := hasNaN_eq_false data hn
  have h2 : headerFail f.lines = false := headerFail_eq_false_of_good f.lines hh
  simp [fileCheck, hp, openLines_eq, h1, h2]

/-- Witness for C5 at the spec's `good.dat` scenario. -/
theorem wellformed_no_failures_witness :
    fileCheck ⟨some [⟨PyFloat.val 100, PyFloat.val 1⟩,
        ⟨PyFloat.val 200, PyFloat.val 2⟩],
      ["# Flambda (ergs/s/cm^2/nm)\n", "100.0 1.0\n", "200.0 2.0\n"]⟩
      "starSED/good.dat" = [] :=
  wellformed_no_failures _ _ _ rfl (by decide)
    (Or.inr ⟨"# Flambda (ergs/s/cm^2/nm)\n", by decide, by decide⟩)

/-- C6: a file with no header line before its first data line never gets a
`header` failure record, whatever its parse result or data content. -/
theorem no_header_lines_no_header_failure (f : SedFile) (n : String)
    (hno : f.lines.takeWhile isHdr = []) :
    (n, "header") ∉ fileCheck f n := by
  intro hmem
  rw [header_mem_fileCheck] at hmem
  rw [headerFail_eq_false_of_good f.lines (Or.inl hno)] at hmem
  exact Bool.false_ne_true hmem.2

/-- Witness for C6 at a headerless file with NaN data. -/
theorem no_header_lines_no_header_failure_witness :
    ("galaxySED/p.dat", "header") ∉
      fileCheck ⟨some [⟨PyFloat.nan, PyFloat.nan⟩], ["100.0 \n"]⟩
        "galaxySED/p.dat" :=
  no_header_lines_no_header_failure _ _ (by decide)

/-- C7: on an accessible directory the Tree Validator's output is the
concatenation, over the entries in listing order, of the recursive result
for each subdirectory and the File Check result for each file; hence every
failure of every file nested anywhere in the tree appears in the output. -/
theorem traversal_is_concat_and_complete (d : String)
    (entries : List FSEntry) (l : List (String × String))
    (h : verify_sed_files d (some entries) = .ok l) :
    Except.ok l = Except.map List.flatten (entries.mapM (verifyEntry d)) ∧
    ∀ p f x, FileAt d entries p f → x ∈ fileCheck f p → x ∈ l := by
  have hl : verifyList d entries = .ok l := by
    simpa only [verify_sed_files] using h
  exact ⟨by rw [← verifyList_eq_mapM, hl],
    fun p f x hat hx => fileAt_mem d entries p f hat l hl x hx⟩

/-- File used by the C7 witness: one NaN row, no header. -/
def c7File : SedFile := ⟨some [⟨PyFloat.nan, PyFloat.val 1⟩], []⟩

/-- Tree used by the C7 witness: the file sits one subdirectory deep. -/
def c7Tree : List FSEntry :=
  [FSEntry.dir "sub" (some [FSEntry.file "bad.dat" c7File])]

/-- Witness for C7: the nested file's `nan` failure reaches the output with
its full path, and the output is the stated concatenation. -/
theorem traversal_is_concat_and_complete_witness :
    (Except.ok [("root/sub/bad.dat", "nan")] =
      Except.map List.flatten (List.mapM (verifyEntry "root") c7Tree)) ∧
    ("root/sub/bad.dat", "nan") ∈ [("root/sub/bad.dat", "nan")] := by
  have h : verify_sed_files "root" (some c7Tree) =
      .ok [("root/sub/bad.dat", "nan")] := by
    simp only [verify_sed_files, verifyList, verifyEntry, c7Tree, c7File,
      Except.ok.injEq]
    decide
  have main := traversal_is_concat_and_complete "root" c7Tree _ h
  refine ⟨main.1, main.2 "root/sub/bad.dat" c7File ("root/sub/bad.dat", "nan")
    ?_ (by decide)⟩
  exact FileAt.deeper (List.mem_singleton.mpr rfl)
    (FileAt.here (List.mem_singleton.mpr rfl))

/-- C8: an inaccessible directory path makes the Tree Validator propagate
the access error: `os.listdir` raising at the root, or at any subdirectory
reached during traversal, yields the error itself and no partial failure
list. -/
theorem inaccessible_directory_aborts (d n : String) (rest : List FSEntry) :
    verify_sed_files d none = .error d ∧
    verify_sed_files d (some (FSEntry.dir n none :: rest)) =
      .error (joinPath d n) := by
  constructor
  · simp only [verify_sed_files]
  · simp only [verify_sed_files, verifyList, verifyEntry]

/-- C9: the header check on a `.gz` file behaves exactly like the header
check on an uncompressed file holding the same decompressed text: the one
takes the decompressing open, the other the plain open, and they append the
same `header` records. -/
theorem gz_header_check_matches_plain (f g : SedFile) (n m : String)
    (hn : pyEndsWith n ".gz" = true) (hm : pyEndsWith m ".gz" = false)
    (hp : f.parse = g.parse) (hl : f.lines = g.lines) :
    openLines n f = gzipOpenLines f ∧ openLines m g = plainOpenLines g ∧
    (((n, "header") ∈ fileCheck f n) ↔ ((m, "header") ∈ fileCheck g m)) := by
  refine ⟨by simp [openLines, hn], by simp [openLines, hm], ?_⟩
  rw [header_mem_fileCheck, header_mem_fileCheck, hp, hl]

/-- Witness for C9 at a compressed/uncompressed pair with a bad header. -/
theorem gz_header_check_matches_plain_witness :
    (openLines "starSED/a.gz" ⟨some [], ["#x\n", "1 1\n"]⟩ =
      gzipOpenLines ⟨some [], ["#x\n", "1 1\n"]⟩) ∧
    (openLines "starSED/a.dat" ⟨some [], ["#x\n", "1 1\n"]⟩ =
      plainOpenLines ⟨some [], ["#x\n", "1 1\n"]⟩) ∧
    ((("starSED/a.gz", "header") ∈
        fileCheck ⟨some [], ["#x\n", "1 1\n"]⟩ "starSED/a.gz") ↔
      (("starSED/a.dat", "header") ∈
        fileCheck ⟨some [], ["#x\n", "1 1\n"]⟩ "starSED/a.dat")) :=
  gz_header_check_matches_plain _ _ _ _ (by decide) (by decide) rfl rfl

/-- C10: a file that loads without a parse error and consists entirely of
header lines (no data line at all) never gets a `header` failure record,
even when its last header line does not end in `)` then newline. -/
theorem all_header_file_no_header_failure (f : SedFile) (n : String)
    (data : List SedRow)
    (_hp : f.parse = some data)
    (hall : ∀ l ∈ f.lines, isHdr l = true) :
    (n, "header") ∉ fileCheck f n := by
  intro hmem
  rw [header_mem_fileCheck] at hmem
  have h2 : headerFail f.lines = false := headerScan_all_hdr f.lines hall none
  rw [h2] at hmem
  exact Bool.false_ne_true hmem.2

/-- Witness for C10 at a file holding a single bad header line and nothing
else. -/
theorem all_header_file_no_header_failure_witness :
    ("agnSED/h.dat", "header") ∉
      fileCheck ⟨some [], ["# bad\n"]⟩ "agnSED/h.dat" :=
  all_header_file_no_header_failure _ _ [] rfl (by decide)

end SedValidate
